import Mathlib

/-!
Shallow embedding of movcat (src/main.rs): input-set resolution
(expand_glob_patterns), container inspection (analyze_mov_file),
compatibility validation (validate_input_files) and the concatenation
orchestrator (concatenate_mov_files / concatenate_with_ffmpeg).

Filesystem and subprocess effects are modelled by explicit capability
records (FS, Env); printed warnings and filesystem events are collected
in lists so that the theorems can speak about them.
-/

/-- Metadata record for one container file, mirroring struct MovInfo. -/
structure MovInfo where
  path : String
  duration : Nat
  timescale : Nat
  major_brand : String
  track_count : Nat
  video_tracks : Nat
  audio_tracks : Nat
deriving DecidableEq, Repr, Inhabited

/-- One entry yielded by the glob iterator: either a path together with
the result of the is_file test, or an enumeration error (skipped with a
warning by the source). -/
inductive GlobEntry where
  | ok (path : String) (isFile : Bool)
  | err (msg : String)
deriving DecidableEq, Repr

/-- Filesystem capability used by expand_glob_patterns: the glob crate
call, which either fails (invalid pattern) or yields a list of entries. -/
structure FS where
  glob : String → Except String (List GlobEntry)

/-- Errors of expand_glob_patterns, mirroring the three bail sites. -/
inductive ResolveError where
  | invalidPattern (p : String)
  | noMatch (p : String)
  | noInput
deriving DecidableEq, Repr

/-- pattern.contains of any of the wildcard metacharacters. -/
def isGlobPattern (p : String) : Bool :=
  p.data.contains '*' || p.data.contains '?' || p.data.contains '['

/-- Lexicographic comparison of character lists, the order used to sort
the matches of one glob token (byte-wise path comparison). -/
def leChars : List Char → List Char → Bool
  | [], _ => true
  | _ :: _, [] => false
  | a :: as, b :: bs =>
    if a < b then true
    else if b < a then false
    else leChars as bs

/-- Lexicographic order on paths. -/
def pathLe (a b : String) : Prop := leChars a.data b.data = true

instance : DecidableRel pathLe := fun a b =>
  inferInstanceAs (Decidable (leChars a.data b.data = true))

theorem leChars_cons_iff (x y : Char) (xs ys : List Char) :
    leChars (x :: xs) (y :: ys) = true ↔
      x < y ∨ (x = y ∧ leChars xs ys = true) := by
  show (if x < y then true
    else if y < x then false else leChars xs ys) = true ↔ _
  rcases lt_trichotomy x y with h | h | h
  · simp [h]
  · simp [h, lt_irrefl]
  · simp [if_neg (asymm h), if_pos h, h.ne', asymm h]

theorem leChars_total : ∀ a b, leChars a b = true ∨ leChars b a = true
  | [], _ => .inl rfl
  | _ :: _, [] => .inr rfl
  | x :: xs, y :: ys => by
    rcases lt_trichotomy x y with h | h | h
    · exact .inl ((leChars_cons_iff ..).mpr (.inl h))
    · rcases leChars_total xs ys with ih | ih
      · exact .inl ((leChars_cons_iff ..).mpr (.inr ⟨h, ih⟩))
      · exact .inr ((leChars_cons_iff ..).mpr (.inr ⟨h.symm, ih⟩))
    · exact .inr ((leChars_cons_iff ..).mpr (.inl h))

theorem leChars_trans :
    ∀ a b c, leChars a b = true → leChars b c = true → leChars a c = true
  | [], _, _, _, _ => rfl
  | _ :: _, [], _, hab, _ => by simp [leChars] at hab
  | _ :: _, _ :: _, [], _, hbc => by simp [leChars] at hbc
  | x :: xs, y :: ys, z :: zs, hab, hbc => by
    rw [leChars_cons_iff] at hab hbc ⊢
    rcases hab with h1 | ⟨h1, h1'⟩
    · rcases hbc with h2 | ⟨h2, _⟩
      · exact .inl (lt_trans h1 h2)
      · exact .inl (lt_of_lt_of_eq h1 h2)
    · rcases hbc with h2 | ⟨h2, h2'⟩
      · exact .inl (lt_of_eq_of_lt h1 h2)
      · exact .inr ⟨h1.trans h2, leChars_trans xs ys zs h1' h2'⟩

instance : IsTotal String pathLe :=
  ⟨fun a b => leChars_total a.data b.data⟩

instance : IsTrans String pathLe :=
  ⟨fun a b c => leChars_trans a.data b.data c.data⟩

/-- The entries kept by the enumeration loop: Ok entries that pass the
is_file test; Err entries are skipped (warning only). -/
def keptFiles (entries : List GlobEntry) : List String :=
  entries.filterMap fun e =>
    match e with
    | .ok path isFile => if isFile then some path else none
    | .err _ => none

/-- The sort applied to the matches of one glob token
(pattern_files.sort). -/
def sortPaths (l : List String) : List String :=
  List.insertionSort pathLe l

/-- The loop of expand_glob_patterns, with the mutable all_files vector
made an explicit accumulator. -/
def expandLoop (fs : FS) (acc : List String) :
    List String → Except ResolveError (List String)
  | [] => .ok acc
  | p :: rest =>
    if isGlobPattern p then
      match fs.glob p with
      | .error _ => .error (.invalidPattern p)
      | .ok entries =>
        let pattern_files := keptFiles entries
        if pattern_files.isEmpty then .error (.noMatch p)
        else expandLoop fs (acc ++ sortPaths pattern_files) rest
    else
      expandLoop fs (acc ++ [p]) rest

/-- fn expand_glob_patterns: the token loop followed by the final
emptiness check. -/
def expand_glob_patterns (fs : FS) (patterns : List String) :
    Except ResolveError (List String) :=
  match expandLoop fs [] patterns with
  | .error e => .error e
  | .ok all_files =>
    if all_files.isEmpty then .error .noInput else .ok all_files

/-- Declarative per-token expansion, following the words of the spec: a
literal token stands for itself; a glob token stands for its kept
matches in sorted order. Used to compare the loop with the spec. -/
def tokenExpansionSpec (fs : FS) (p : String) : List String :=
  if isGlobPattern p then
    match fs.glob p with
    | .ok entries => sortPaths (keptFiles entries)
    | .error _ => []
  else [p]

/-- Declarative concatenation of per-token expansions in input order. -/
def flatExpansion (fs : FS) : List String → List String
  | [] => []
  | p :: rest => tokenExpansionSpec fs p ++ flatExpansion fs rest

/-! ## ContainerInspector and CompatibilityValidator -/

/-- fn analyze_mov_file: the current implementation ignores the
filesystem and unconditionally returns the fixed placeholder record. -/
def analyze_mov_file (path : String) : Except String MovInfo :=
  .ok { path := path, duration := 0, timescale := 1000,
        major_brand := "mp4", track_count := 1,
        video_tracks := 1, audio_tracks := 0 }

/-- Errors of validate_input_files, mirroring its bail sites and the
question-mark propagation of an analyzer error. -/
inductive ValidateError where
  | fileNotFound (p : String)
  | analyzeFailed (msg : String)
  | noMediaTracks (p : String)
deriving DecidableEq, Repr

/-- Non-fatal diagnostics printed by the compatibility check. -/
inductive Warning where
  | brand (first other : String)
  | timescale (first other : Nat)
deriving DecidableEq, Repr

/-- The per-file loop of validate_input_files: existence check, analyze,
hard no-media-tracks rule, push. The mutable infos vector is an explicit
accumulator; the analyzer is the injected inspection capability. -/
def hardLoop (ex : String → Bool) (analyze : String → Except String MovInfo)
    (acc : List MovInfo) : List String → Except ValidateError (List MovInfo)
  | [] => .ok acc
  | f :: rest =>
    if ex f = false then .error (.fileNotFound f)
    else
      match analyze f with
      | .error e => .error (.analyzeFailed e)
      | .ok info =>
        if info.video_tracks = 0 ∧ info.audio_tracks = 0 then
          .error (.noMediaTracks f)
        else hardLoop ex analyze (acc ++ [info]) rest

/-- The warnings emitted for one entry compared against the first
entry of the set. -/
def warnsFor (first info : MovInfo) : List Warning :=
  (if info.major_brand ≠ first.major_brand then
    [Warning.brand first.major_brand info.major_brand] else [])
  ++ (if info.timescale ≠ first.timescale then
    [Warning.timescale first.timescale info.timescale] else [])

/-- The compatibility loop over infos from the second entry onward. -/
def warnLoop (first : MovInfo) : List MovInfo → List Warning
  | [] => []
  | info :: rest => warnsFor first info ++ warnLoop first rest

/-- The warnings printed by the compatibility check of
validate_input_files (guarded by infos.len() greater than 1). -/
def compatWarnings (infos : List MovInfo) : List Warning :=
  if infos.length > 1 then
    match infos with
    | [] => []
    | first :: rest => warnLoop first rest
  else []

/-- fn validate_input_files: the hard-rule loop followed by the
compatibility check; the printed warnings are returned alongside the
infos so theorems can mention them. -/
def validate_input_files (ex : String → Bool)
    (analyze : String → Except String MovInfo) (files : List String) :
    Except ValidateError (List MovInfo × List Warning) :=
  match hardLoop ex analyze [] files with
  | .error e => .error e
  | .ok infos => .ok (infos, compatWarnings infos)

/-! ## ConcatenationOrchestrator -/

/-- Errors of concatenate_mov_files / concatenate_with_ffmpeg. -/
inductive ConcatError where
  | externalToolMissing
  | pathResolution (p : String)
  | manifestWrite (p : String)
  | executionFailed
  | ffmpegFailed (stderr : String)
deriving DecidableEq, Repr

/-- Observable filesystem/subprocess events of one orchestrator run. -/
inductive Event where
  | wroteManifest (path content : String)
  | ranFfmpeg
  | removedManifest
deriving DecidableEq, Repr

/-- Environment capabilities consumed by the orchestrator: the result of
the ffmpeg availability probe, path canonicalization, the temporary
directory, whether fs write succeeds, the outcome of running ffmpeg
(spawn error, or exit success flag with captured stderr), and whether
removing the manifest succeeds. -/
structure Env where
  ffmpegAvailable : Bool
  canon : String → Except String String
  tempDir : String
  writeOk : Bool
  runResult : Except String (Bool × String)
  removeOk : Bool

/-- temp_dir().join of the fixed manifest file name. -/
def filelist_path (env : Env) : String :=
  env.tempDir ++ "/movcat_filelist.txt"

/-- The manifest-building loop of concatenate_with_ffmpeg: canonicalize
each path in set order and append one single-quoted file directive per
entry; the error carries the path whose canonicalization failed. -/
def buildLoop (canon : String → Except String String) (acc : String) :
    List MovInfo → Except String String
  | [] => .ok acc
  | info :: rest =>
    match canon info.path with
    | .error _ => .error info.path
    | .ok abs => buildLoop canon (acc ++ "file \x27" ++ abs ++ "\x27\n") rest

/-- fn concatenate_with_ffmpeg: build the manifest body, write it, run
ffmpeg, clean up, interpret the exit status. The event list records the
successful write, the invocation, and the manifest removal attempt.
When spawning ffmpeg itself fails, the question-mark operator returns
before the remove_file call, so no removal event is recorded. -/
def concatenate_with_ffmpeg (env : Env) (infos : List MovInfo)
    (output_path : String) : Except ConcatError Unit × List Event :=
  match buildLoop env.canon "" infos with
  | .error p => (.error (.pathResolution p), [])
  | .ok body =>
    if env.writeOk then
      match env.runResult with
      | .error _ =>
        (.error .executionFailed,
         [Event.wroteManifest (filelist_path env) body, Event.ranFfmpeg])
      | .ok (status, stderr) =>
        if status then
          (.ok (),
           [Event.wroteManifest (filelist_path env) body, Event.ranFfmpeg,
            Event.removedManifest])
        else
          (.error (.ffmpegFailed stderr),
           [Event.wroteManifest (filelist_path env) body, Event.ranFfmpeg,
            Event.removedManifest])
    else (.error (.manifestWrite (filelist_path env)), [])

/-- fn concatenate_mov_files: the availability probe, then delegation. -/
def concatenate_mov_files (env : Env) (infos : List MovInfo)
    (output_path : String) : Except ConcatError Unit × List Event :=
  if env.ffmpegAvailable then concatenate_with_ffmpeg env infos output_path
  else (.error .externalToolMissing, [])

/-- Declarative manifest body, following the words of the spec: exactly
one line per entry, in set order, of the form file quote path quote. -/
def manifestLinesSpec (c : MovInfo → String) : List MovInfo → String
  | [] => ""
  | info :: rest => "file \x27" ++ c info ++ "\x27\n" ++ manifestLinesSpec c rest

/-! ## Sample capability instances used by concrete witnesses -/

/-- A filesystem whose only glob pattern is seg_star, yielding three
regular files in non-sorted enumeration order. -/
def fsSeg : FS :=
  ⟨fun p =>
    if p = "seg_*.mov" then
      .ok [.ok "seg_2.mov" true, .ok "seg_1.mov" true, .ok "seg_10.mov" true]
    else .error "unknown pattern"⟩

/-- A filesystem on which every glob call fails. -/
def fsTriv : FS := ⟨fun _ => .error "no glob"⟩

/-- A filesystem on which every glob call succeeds with no entries. -/
def fsEmptyGlob : FS := ⟨fun _ => .ok []⟩

/-- A sample metadata record with one video track. -/
def sampleInfo : MovInfo :=
  { path := "a.mov", duration := 0, timescale := 1000, major_brand := "mp4",
    track_count := 1, video_tracks := 1, audio_tracks := 0 }

/-- The fixed record analyze_mov_file returns for a given path. -/
def stubMeta (p : String) : MovInfo :=
  { path := p, duration := 0, timescale := 1000, major_brand := "mp4",
    track_count := 1, video_tracks := 1, audio_tracks := 0 }

/-- A sample inspector reporting no media tracks at all. -/
def noTracksAnalyzer (f : String) : MovInfo :=
  { path := f, duration := 0, timescale := 1000, major_brand := "mp4",
    track_count := 0, video_tracks := 0, audio_tracks := 0 }

/-- A sample inspector reporting one audio track and no video track. -/
def audioOnlyAnalyzer (f : String) : MovInfo :=
  { path := f, duration := 0, timescale := 1000, major_brand := "mp4",
    track_count := 1, video_tracks := 0, audio_tracks := 1 }

/-- A sample inspector assigning different major brands and timescales
to two files, used to exercise the soft compatibility rule. -/
def brandAnalyzer (f : String) : MovInfo :=
  if f = "a.mov" then
    { path := f, duration := 0, timescale := 1000, major_brand := "mp4",
      track_count := 1, video_tracks := 1, audio_tracks := 0 }
  else
    { path := f, duration := 0, timescale := 600, major_brand := "qt",
      track_count := 1, video_tracks := 0, audio_tracks := 1 }

/-- An environment in which spawning ffmpeg itself fails. -/
def envSpawnFail : Env :=
  { ffmpegAvailable := true, canon := fun p => .ok p, tempDir := "/tmp",
    writeOk := true, runResult := .error "spawn failure", removeOk := true }

/-- An environment in which ffmpeg runs and exits with status zero. -/
def envRunOk : Env :=
  { ffmpegAvailable := true, canon := fun p => .ok ("/abs/" ++ p),
    tempDir := "/tmp", writeOk := true, runResult := .ok (true, ""),
    removeOk := true }

/-- An environment in which the ffmpeg availability probe fails. -/
def envNoTool : Env :=
  { ffmpegAvailable := false, canon := fun p => .ok p, tempDir := "/tmp",
    writeOk := true, runResult := .ok (true, ""), removeOk := true }

/-! ## PathResolver lemmas -/

theorem expandLoop_ok (fs : FS) :
    ∀ (ps : List String) (acc l : List String),
      expandLoop fs acc ps = .ok l → l = acc ++ flatExpansion fs ps
  | [], acc, l, h => by
    simp [expandLoop] at h
    simp [flatExpansion, h]
  | p :: rest, acc, l, h => by
    rw [flatExpansion]
    by_cases hg : isGlobPattern p = true
    · rcases hge : fs.glob p with e | entries
      · simp [expandLoop, hg, hge] at h
      · by_cases hk : (keptFiles entries).isEmpty = true
        · simp [expandLoop, hg, hge, hk] at h
        · simp only [expandLoop, hg, if_true, hge, hk, if_false] at h
          rw [expandLoop_ok fs rest _ l h, tokenExpansionSpec, if_pos hg, hge,
            List.append_assoc]
    · simp only [expandLoop, hg, if_false] at h
      rw [expandLoop_ok fs rest _ l h, tokenExpansionSpec, if_neg hg,
        List.append_assoc]

theorem expandLoop_success (fs : FS) :
    ∀ (ps : List String) (acc : List String),
      (∀ p ∈ ps, isGlobPattern p = true → (fs.glob p).isOk = true) →
      (∀ p ∈ ps, isGlobPattern p = true →
        ∀ es, fs.glob p = .ok es → keptFiles es ≠ []) →
      expandLoop fs acc ps = .ok (acc ++ flatExpansion fs ps)
  | [], acc, _, _ => by simp [expandLoop, flatExpansion]
  | p :: rest, acc, hvalid, hkept => by
    have hvr : ∀ q ∈ rest, isGlobPattern q = true → (fs.glob q).isOk = true :=
      fun q hq => hvalid q (List.mem_cons_of_mem p hq)
    have hkr : ∀ q ∈ rest, isGlobPattern q = true →
        ∀ es, fs.glob q = .ok es → keptFiles es ≠ [] :=
      fun q hq => hkept q (List.mem_cons_of_mem p hq)
    rw [flatExpansion]
    by_cases hg : isGlobPattern p = true
    · rcases hge : fs.glob p with e | entries
      · have := hvalid p (List.mem_cons_self p rest) hg
        rw [hge] at this
        simp [Except.isOk, Except.toBool] at this
      · have hne : keptFiles entries ≠ [] :=
          hkept p (List.mem_cons_self p rest) hg entries hge
        have hk : (keptFiles entries).isEmpty = false := by
          cases hkf : keptFiles entries with
          | nil => exact absurd hkf hne
          | cons x xs => simp [List.isEmpty]
        have hrec := expandLoop_success fs rest
          (acc ++ sortPaths (keptFiles entries)) hvr hkr
        simp [expandLoop, hg, hge, hk, tokenExpansionSpec, hrec]
    · have hrec := expandLoop_success fs rest (acc ++ [p]) hvr hkr
      simp [expandLoop, hg, tokenExpansionSpec, hrec]

theorem expandLoop_noMatch (fs : FS) :
    ∀ (ps : List String) (acc : List String),
      (∀ p ∈ ps, isGlobPattern p = true → (fs.glob p).isOk = true) →
      (∃ p ∈ ps, isGlobPattern p = true ∧
        ∃ es, fs.glob p = .ok es ∧ keptFiles es = []) →
      ∃ q, expandLoop fs acc ps = .error (.noMatch q)
  | [], _, _, hbad => by simp at hbad
  | p :: rest, acc, hvalid, hbad => by
    by_cases hg : isGlobPattern p = true
    · rcases hge : fs.glob p with e | entries
      · have := hvalid p (List.mem_cons_self p rest) hg
        rw [hge] at this
        simp [Except.isOk, Except.toBool] at this
      · by_cases hk : (keptFiles entries).isEmpty = true
        · exact ⟨p, by simp only [expandLoop, hg, if_true, hge, hk, if_true]⟩
        · have hbad' : ∃ q ∈ rest, isGlobPattern q = true ∧
              ∃ es, fs.glob q = .ok es ∧ keptFiles es = [] := by
            rcases hbad with ⟨q, hq, hgq, es, hges, hkes⟩
            rcases List.mem_cons.mp hq with rfl | hq'
            · rw [hge] at hges
              cases hges
              rw [hkes] at hk
              simp [List.isEmpty] at hk
            · exact ⟨q, hq', hgq, es, hges, hkes⟩
          simp only [expandLoop, hg, if_true, hge, hk, if_false]
          exact expandLoop_noMatch fs rest _
            (fun q hq => hvalid q (List.mem_cons_of_mem p hq)) hbad'
    · have hbad' : ∃ q ∈ rest, isGlobPattern q = true ∧
          ∃ es, fs.glob q = .ok es ∧ keptFiles es = [] := by
        rcases hbad with ⟨q, hq, hgq, es, hges, hkes⟩
        rcases List.mem_cons.mp hq with rfl | hq'
        · exact absurd hgq hg
        · exact ⟨q, hq', hgq, es, hges, hkes⟩
      simp only [expandLoop, hg, if_false]
      exact expandLoop_noMatch fs rest _
        (fun q hq => hvalid q (List.mem_cons_of_mem p hq)) hbad'

theorem flatExpansion_literals (fs : FS) :
    ∀ ps : List String, (∀ p ∈ ps, isGlobPattern p = false) →
      flatExpansion fs ps = ps
  | [], _ => rfl
  | p :: rest, h => by
    rw [flatExpansion, tokenExpansionSpec,
      if_neg (by simp [h p (List.mem_cons_self p rest)]),
      flatExpansion_literals fs rest (fun q hq => h q (List.mem_cons_of_mem p hq))]
    rfl

theorem expandLoop_noMatch_inv (fs : FS) :
    ∀ (ps : List String) (acc : List String) (q : String),
      expandLoop fs acc ps = .error (.noMatch q) →
      ∃ p ∈ ps, isGlobPattern p = true ∧
        ∃ es, fs.glob p = .ok es ∧ keptFiles es = []
  | [], acc, q, h => by simp [expandLoop] at h
  | p :: rest, acc, q, h => by
    by_cases hg : isGlobPattern p = true
    · rcases hge : fs.glob p with e | entries
      · simp [expandLoop, hg, hge] at h
      · by_cases hk : (keptFiles entries).isEmpty = true
        · exact ⟨p, List.mem_cons_self p rest, hg, entries, hge,
            List.isEmpty_iff.mp hk⟩
        · simp only [expandLoop, hg, if_true, hge, hk, if_false] at h
          rcases expandLoop_noMatch_inv fs rest _ q h with ⟨r, hr, hgr, es, hges, hkes⟩
          exact ⟨r, List.mem_cons_of_mem p hr, hgr, es, hges, hkes⟩
    · simp only [expandLoop, hg, if_false] at h
      rcases expandLoop_noMatch_inv fs rest _ q h with ⟨r, hr, hgr, es, hges, hkes⟩
      exact ⟨r, List.mem_cons_of_mem p hr, hgr, es, hges, hkes⟩

/-! ## Claim theorems: PathResolver -/

/-- C1: expand_glob_patterns preserves the relative order of tokens: on
success the output is the concatenation, in input order, of per-token
expansions, where a literal token stands for itself at its caller-given
position and a glob token stands for its matches sorted
lexicographically. -/
theorem pathresolver_order_c1 (fs : FS) (ps l : List String)
    (h : expand_glob_patterns fs ps = .ok l) :
    l = flatExpansion fs ps
    ∧ (∀ p ∈ ps, isGlobPattern p = false → tokenExpansionSpec fs p = [p])
    ∧ (∀ p ∈ ps, isGlobPattern p = true →
        List.Sorted pathLe (tokenExpansionSpec fs p)) := by
  rcases hE : expandLoop fs [] ps with e | all
  · rw [expand_glob_patterns, hE] at h
    cases h
  · rw [expand_glob_patterns, hE] at h
    by_cases hemp : all.isEmpty = true
    · simp [hemp] at h
    · simp only [hemp, if_false] at h
      cases h
      refine ⟨?_, ?_, ?_⟩
      · have := expandLoop_ok fs ps [] _ hE
        simpa using this
      · intro p _ hgp
        simp [tokenExpansionSpec, hgp]
      · intro p _ hgp
        rw [tokenExpansionSpec, if_pos hgp]
        cases hge : fs.glob p with
        | error e => exact List.sorted_nil
        | ok entries => exact List.sorted_insertionSort pathLe _

/-- C1 witness: one glob token followed by one literal token; the glob
matches come back sorted, the literal keeps its position. -/
theorem pathresolver_order_c1_witness :
    (["seg_1.mov", "seg_10.mov", "seg_2.mov", "lit.mov"] : List String)
        = flatExpansion fsSeg ["seg_*.mov", "lit.mov"]
    ∧ (∀ p ∈ (["seg_*.mov", "lit.mov"] : List String),
        isGlobPattern p = false → tokenExpansionSpec fsSeg p = [p])
    ∧ (∀ p ∈ (["seg_*.mov", "lit.mov"] : List String),
        isGlobPattern p = true →
        List.Sorted pathLe (tokenExpansionSpec fsSeg p)) :=
  pathresolver_order_c1 fsSeg ["seg_*.mov", "lit.mov"]
    ["seg_1.mov", "seg_10.mov", "seg_2.mov", "lit.mov"] rfl

/-- C6: when every glob call succeeds, expand_glob_patterns fails with
NoMatchError exactly when some glob token matches zero regular files;
when no token does, it fails with NoInputError exactly when the combined
expansion is empty, and succeeds otherwise. -/
theorem pathresolver_failure_modes_c6 (fs : FS) (ps : List String)
    (hvalid : ∀ p ∈ ps, isGlobPattern p = true → (fs.glob p).isOk = true) :
    ((∃ q, expand_glob_patterns fs ps = .error (.noMatch q)) ↔
      ∃ p ∈ ps, isGlobPattern p = true ∧
        ∃ es, fs.glob p = .ok es ∧ keptFiles es = [])
    ∧ ((¬ ∃ p ∈ ps, isGlobPattern p = true ∧
          ∃ es, fs.glob p = .ok es ∧ keptFiles es = []) →
        (expand_glob_patterns fs ps = .error .noInput ↔
          flatExpansion fs ps = []))
    ∧ ((¬ ∃ p ∈ ps, isGlobPattern p = true ∧
          ∃ es, fs.glob p = .ok es ∧ keptFiles es = []) →
        flatExpansion fs ps ≠ [] →
        ∃ l, expand_glob_patterns fs ps = .ok l) := by
  refine ⟨⟨?_, ?_⟩, ?_, ?_⟩
  · rintro ⟨q, hq⟩
    rcases hE : expandLoop fs [] ps with e | all
    · rw [expand_glob_patterns, hE] at hq
      cases hq
      exact expandLoop_noMatch_inv fs ps [] q hE
    · rw [expand_glob_patterns, hE] at hq
      by_cases hemp : all.isEmpty = true
      · simp [hemp] at hq
      · simp [hemp] at hq
  · intro hbad
    rcases expandLoop_noMatch fs ps [] hvalid hbad with ⟨q, hq⟩
    exact ⟨q, by rw [expand_glob_patterns, hq]⟩
  · intro hbad
    have hkept : ∀ p ∈ ps, isGlobPattern p = true →
        ∀ es, fs.glob p = .ok es → keptFiles es ≠ [] := by
      intro p hp hgp es hes hk
      exact hbad ⟨p, hp, hgp, es, hes, hk⟩
    have hS := expandLoop_success fs ps [] hvalid hkept
    rw [List.nil_append] at hS
    rw [expand_glob_patterns, hS]
    constructor
    · intro h
      by_cases hemp : (flatExpansion fs ps).isEmpty = true
      · exact List.isEmpty_iff.mp hemp
      · simp [hemp] at h
    · intro h
      simp [h, List.isEmpty]
  · intro hbad hne
    have hkept : ∀ p ∈ ps, isGlobPattern p = true →
        ∀ es, fs.glob p = .ok es → keptFiles es ≠ [] := by
      intro p hp hgp es hes hk
      exact hbad ⟨p, hp, hgp, es, hes, hk⟩
    have hS := expandLoop_success fs ps [] hvalid hkept
    rw [List.nil_append] at hS
    refine ⟨flatExpansion fs ps, ?_⟩
    rw [expand_glob_patterns, hS]
    have hemp : (flatExpansion fs ps).isEmpty = false := by
      cases hfe : flatExpansion fs ps with
      | nil => exact absurd hfe hne
      | cons x xs => simp [List.isEmpty]
    simp [hemp]

/-- C6 witness: a glob token whose (successful) glob call yields no
entries makes expand_glob_patterns fail with NoMatchError. -/
theorem pathresolver_failure_modes_c6_witness :
    ((∃ q, expand_glob_patterns fsEmptyGlob ["zero_*.mov"]
        = .error (.noMatch q)) ↔
      ∃ p ∈ (["zero_*.mov"] : List String), isGlobPattern p = true ∧
        ∃ es, fsEmptyGlob.glob p = .ok es ∧ keptFiles es = [])
    ∧ ((¬ ∃ p ∈ (["zero_*.mov"] : List String), isGlobPattern p = true ∧
          ∃ es, fsEmptyGlob.glob p = .ok es ∧ keptFiles es = []) →
        (expand_glob_patterns fsEmptyGlob ["zero_*.mov"] = .error .noInput ↔
          flatExpansion fsEmptyGlob ["zero_*.mov"] = []))
    ∧ ((¬ ∃ p ∈ (["zero_*.mov"] : List String), isGlobPattern p = true ∧
          ∃ es, fsEmptyGlob.glob p = .ok es ∧ keptFiles es = []) →
        flatExpansion fsEmptyGlob ["zero_*.mov"] ≠ [] →
        ∃ l, expand_glob_patterns fsEmptyGlob ["zero_*.mov"] = .ok l) :=
  pathresolver_failure_modes_c6 fsEmptyGlob ["zero_*.mov"] (by decide)

/-- C3 counterexample: the same literal path supplied twice appears
twice in the output, so the output is not deduplicated. -/
theorem pathresolver_dedup_cex_c3 :
    expand_glob_patterns fsTriv ["a.mov", "a.mov"] = .ok ["a.mov", "a.mov"]
    ∧ ¬ (["a.mov", "a.mov"] : List String).Nodup :=
  ⟨rfl, by decide⟩

/-- C3 amended: expand_glob_patterns performs no deduplication; the
per-token expansions are concatenated verbatim, so in particular a
non-empty sequence of literal tokens is returned exactly as given,
duplicates included. -/
theorem pathresolver_no_dedup_c3 (fs : FS) (ps : List String)
    (hlit : ∀ p ∈ ps, isGlobPattern p = false) (hne : ps ≠ []) :
    expand_glob_patterns fs ps = .ok ps := by
  have hvalid : ∀ p ∈ ps, isGlobPattern p = true → (fs.glob p).isOk = true := by
    intro p hp hgp
    rw [hlit p hp] at hgp
    cases hgp
  have hkept : ∀ p ∈ ps, isGlobPattern p = true →
      ∀ es, fs.glob p = .ok es → keptFiles es ≠ [] := by
    intro p hp hgp
    rw [hlit p hp] at hgp
    cases hgp
  have hS := expandLoop_success fs ps [] hvalid hkept
  rw [List.nil_append, flatExpansion_literals fs ps hlit] at hS
  rw [expand_glob_patterns, hS]
  cases ps with
  | nil => exact absurd rfl hne
  | cons p rest => simp [List.isEmpty]

/-- C3 witness: a duplicated literal token flows through unchanged. -/
theorem pathresolver_no_dedup_c3_witness :
    expand_glob_patterns fsTriv ["dup.mov", "dup.mov"]
      = .ok ["dup.mov", "dup.mov"] :=
  pathresolver_no_dedup_c3 fsTriv ["dup.mov", "dup.mov"] (by decide) (by decide)

/-! ## CompatibilityValidator lemmas -/

theorem hardLoop_ok_of (ex : String → Bool) (a : String → MovInfo) :
    ∀ (files : List String) (acc : List MovInfo),
      (∀ f ∈ files, ex f = true) →
      (∀ f ∈ files, ¬((a f).video_tracks = 0 ∧ (a f).audio_tracks = 0)) →
      hardLoop ex (fun f => .ok (a f)) acc files = .ok (acc ++ files.map a)
  | [], acc, _, _ => by simp [hardLoop]
  | f :: rest, acc, hex, hmedia => by
    have hrec := hardLoop_ok_of ex a rest (acc ++ [a f])
      (fun q hq => hex q (List.mem_cons_of_mem f hq))
      (fun q hq => hmedia q (List.mem_cons_of_mem f hq))
    simp [hardLoop, hex f (List.mem_cons_self f rest),
      hmedia f (List.mem_cons_self f rest), hrec]

theorem hardLoop_noMedia (ex : String → Bool) (a : String → MovInfo) :
    ∀ (files : List String) (acc : List MovInfo),
      (∀ f ∈ files, ex f = true) →
      (∃ f ∈ files, (a f).video_tracks = 0 ∧ (a f).audio_tracks = 0) →
      ∃ p, hardLoop ex (fun f => .ok (a f)) acc files
        = .error (.noMediaTracks p)
  | [], _, _, hbad => by simp at hbad
  | f :: rest, acc, hex, hbad => by
    by_cases hm : (a f).video_tracks = 0 ∧ (a f).audio_tracks = 0
    · exact ⟨f, by simp [hardLoop, hex f (List.mem_cons_self f rest), hm]⟩
    · have hbad' : ∃ q ∈ rest, (a q).video_tracks = 0 ∧ (a q).audio_tracks = 0 := by
        rcases hbad with ⟨q, hq, hqq⟩
        rcases List.mem_cons.mp hq with rfl | hq'
        · exact absurd hqq hm
        · exact ⟨q, hq', hqq⟩
      rcases hardLoop_noMedia ex a rest (acc ++ [a f])
        (fun q hq => hex q (List.mem_cons_of_mem f hq)) hbad' with ⟨p, hp⟩
      exact ⟨p, by simp [hardLoop, hex f (List.mem_cons_self f rest), hm, hp]⟩

theorem hardLoop_noMedia_inv (ex : String → Bool)
    (analyze : String → Except String MovInfo) :
    ∀ (files : List String) (acc : List MovInfo) (p : String),
      hardLoop ex analyze acc files = .error (.noMediaTracks p) →
      ∃ f ∈ files, ∃ i, analyze f = .ok i ∧
        i.video_tracks = 0 ∧ i.audio_tracks = 0
  | [], acc, p, h => by simp [hardLoop] at h
  | f :: rest, acc, p, h => by
    by_cases hx : ex f = false
    · simp [hardLoop, hx] at h
    · rcases ha : analyze f with e | info
      · simp [hardLoop, hx, ha] at h
      · by_cases hm : info.video_tracks = 0 ∧ info.audio_tracks = 0
        · exact ⟨f, List.mem_cons_self f rest, info, ha, hm⟩
        · simp only [hardLoop, hx, if_false, ha, hm, if_neg] at h
          rcases hardLoop_noMedia_inv ex analyze rest _ p h with
            ⟨q, hq, i, hi, him⟩
          exact ⟨q, List.mem_cons_of_mem f hq, i, hi, him⟩

theorem hardLoop_length (ex : String → Bool)
    (analyze : String → Except String MovInfo) :
    ∀ (files : List String) (acc infos : List MovInfo),
      hardLoop ex analyze acc files = .ok infos →
      infos.length = acc.length + files.length
  | [], acc, infos, h => by
    simp [hardLoop] at h
    simp [← h]
  | f :: rest, acc, infos, h => by
    by_cases hx : ex f = false
    · simp [hardLoop, hx] at h
    · rcases ha : analyze f with e | info
      · simp [hardLoop, hx, ha] at h
      · by_cases hm : info.video_tracks = 0 ∧ info.audio_tracks = 0
        · simp [hardLoop, hx, ha, hm] at h
        · simp only [hardLoop, hx, if_false, ha, hm, if_neg] at h
          have := hardLoop_length ex analyze rest (acc ++ [info]) infos h
          simp only [List.length_append, List.length_cons, List.length_nil] at this ⊢
          omega

theorem hardLoop_stub_error (ex : String → Bool) :
    ∀ (files : List String) (acc : List MovInfo) (e : ValidateError),
      hardLoop ex analyze_mov_file acc files = .error e →
      ∃ p, e = .fileNotFound p
  | [], acc, e, h => by simp [hardLoop] at h
  | f :: rest, acc, e, h => by
    by_cases hx : ex f = false
    · refine ⟨f, ?_⟩
      simp [hardLoop, hx] at h
      exact h.symm
    · simp [hardLoop, hx, analyze_mov_file] at h
      exact hardLoop_stub_error ex rest _ e h

theorem mem_warnLoop (first : MovInfo) :
    ∀ (rest : List MovInfo) (i : MovInfo), i ∈ rest →
      ∀ w ∈ warnsFor first i, w ∈ warnLoop first rest
  | [], i, hi => absurd hi (List.not_mem_nil i)
  | j :: rs, i, hi => by
    intro w hw
    rcases List.mem_cons.mp hi with rfl | hi'
    · exact List.mem_append_left _ hw
    · exact List.mem_append_right _ (mem_warnLoop first rs i hi' w hw)

theorem warnLoop_nil_of_eq (first : MovInfo) :
    ∀ rest : List MovInfo,
      (∀ i ∈ rest,
        i.major_brand = first.major_brand ∧ i.timescale = first.timescale) →
      warnLoop first rest = []
  | [], _ => rfl
  | i :: rs, h => by
    have h1 := h i (List.mem_cons_self i rs)
    rw [warnLoop, warnsFor, if_neg (by simp [h1.1]), if_neg (by simp [h1.2]),
      warnLoop_nil_of_eq first rs (fun j hj => h j (List.mem_cons_of_mem i hj))]
    rfl

theorem compatWarnings_stub (files : List String) :
    compatWarnings (files.map stubMeta) = [] := by
  have hall : ∀ i ∈ files.map stubMeta,
      i.major_brand = "mp4" ∧ i.timescale = 1000 := by
    intro i hi
    rcases List.mem_map.mp hi with ⟨f, _, rfl⟩
    exact ⟨rfl, rfl⟩
  cases hm : files.map stubMeta with
  | nil => rfl
  | cons first rest =>
    rw [hm] at hall
    have hfirst := hall first (List.mem_cons_self first rest)
    cases rest with
    | nil => rfl
    | cons j js =>
      have hlen : (first :: j :: js).length > 1 := by
        simp only [List.length_cons]
        omega
      rw [compatWarnings, if_pos hlen]
      exact warnLoop_nil_of_eq first (j :: js) (fun i hi => by
        have h2 := hall i (List.mem_cons_of_mem first hi)
        exact ⟨h2.1.trans hfirst.1.symm, h2.2.trans hfirst.2.symm⟩)

/-! ## Claim theorems: CompatibilityValidator and ContainerInspector -/

/-- C4: with every file present, validate_input_files fails with
NoMediaTracksError exactly when some entry has zero video tracks and
zero audio tracks, and succeeds otherwise. -/
theorem validator_hard_rule_c4 (ex : String → Bool) (a : String → MovInfo)
    (files : List String) (hex : ∀ f ∈ files, ex f = true) :
    ((∃ p, validate_input_files ex (fun f => .ok (a f)) files
        = .error (.noMediaTracks p)) ↔
      ∃ f ∈ files, (a f).video_tracks = 0 ∧ (a f).audio_tracks = 0)
    ∧ ((∀ f ∈ files, ¬((a f).video_tracks = 0 ∧ (a f).audio_tracks = 0)) →
        ∃ r, validate_input_files ex (fun f => .ok (a f)) files = .ok r) := by
  constructor
  · constructor
    · rintro ⟨p, hp⟩
      rcases hH : hardLoop ex (fun f => .ok (a f)) [] files with e | infos
      · rw [validate_input_files, hH] at hp
        cases hp
        rcases hardLoop_noMedia_inv ex _ files [] p hH with ⟨f, hf, i, hi, him⟩
        cases hi
        exact ⟨f, hf, him⟩
      · rw [validate_input_files, hH] at hp
        cases hp
    · intro hbad
      rcases hardLoop_noMedia ex a files [] hex hbad with ⟨p, hp⟩
      exact ⟨p, by rw [validate_input_files, hp]⟩
  · intro hmed
    refine ⟨(files.map a, compatWarnings (files.map a)), ?_⟩
    rw [validate_input_files, hardLoop_ok_of ex a files [] hex hmed,
      List.nil_append]

/-- C4 witness: a single entry with zero video and zero audio tracks is
rejected with NoMediaTracksError; the same entry with one audio track is
accepted. -/
theorem validator_hard_rule_c4_witness :
    (∃ p, validate_input_files (fun _ => true)
        (fun f => .ok (noTracksAnalyzer f)) ["a.mov"]
      = .error (.noMediaTracks p))
    ∧ (∃ r, validate_input_files (fun _ => true)
        (fun f => .ok (audioOnlyAnalyzer f)) ["a.mov"] = .ok r) := by
  constructor
  · exact (validator_hard_rule_c4 (fun _ => true) noTracksAnalyzer
      ["a.mov"] (by decide)).1.mpr ⟨"a.mov", by decide, by decide⟩
  · exact (validator_hard_rule_c4 (fun _ => true) audioOnlyAnalyzer
      ["a.mov"] (by decide)).2 (by decide)

/-- C5: with every file present and every entry passing the hard rule,
validate_input_files succeeds, returns the entries in exactly the input
order, and any brand or timescale mismatch against the first entry only
contributes a warning (present in the warning list) without altering the
returned entries. -/
theorem validator_soft_rule_c5 (ex : String → Bool) (a : String → MovInfo)
    (files : List String) (hex : ∀ f ∈ files, ex f = true)
    (hmed : ∀ f ∈ files, ¬((a f).video_tracks = 0 ∧ (a f).audio_tracks = 0)) :
    validate_input_files ex (fun f => .ok (a f)) files
      = .ok (files.map a, compatWarnings (files.map a))
    ∧ (∀ first rest, files.map a = first :: rest →
        ∀ i ∈ rest,
          (i.major_brand ≠ first.major_brand →
            Warning.brand first.major_brand i.major_brand
              ∈ compatWarnings (files.map a))
          ∧ (i.timescale ≠ first.timescale →
            Warning.timescale first.timescale i.timescale
              ∈ compatWarnings (files.map a))) := by
  constructor
  · rw [validate_input_files, hardLoop_ok_of ex a files [] hex hmed,
      List.nil_append]
  · intro first rest hmap i hi
    have hmem : ∀ w ∈ warnsFor first i, w ∈ compatWarnings (files.map a) := by
      intro w hw
      rw [hmap]
      cases rest with
      | nil => exact absurd hi (List.not_mem_nil i)
      | cons j js =>
        have hlen : (first :: j :: js).length > 1 := by
          simp only [List.length_cons]
          omega
        rw [compatWarnings, if_pos hlen]
        exact mem_warnLoop first (j :: js) i hi w hw
    constructor
    · intro hne
      exact hmem _ (by simp [warnsFor, hne])
    · intro hne
      exact hmem _ (by simp [warnsFor, hne])

/-- C5 witness: two entries with differing brands and timescales are
returned in input order together with the two expected warnings. -/
theorem validator_soft_rule_c5_witness :
    validate_input_files (fun _ => true) (fun f => .ok (brandAnalyzer f))
        ["a.mov", "b.mov"]
      = .ok (["a.mov", "b.mov"].map brandAnalyzer,
          compatWarnings (["a.mov", "b.mov"].map brandAnalyzer))
    ∧ (∀ first rest,
        (["a.mov", "b.mov"].map brandAnalyzer) = first :: rest →
        ∀ i ∈ rest,
          (i.major_brand ≠ first.major_brand →
            Warning.brand first.major_brand i.major_brand
              ∈ compatWarnings (["a.mov", "b.mov"].map brandAnalyzer))
          ∧ (i.timescale ≠ first.timescale →
            Warning.timescale first.timescale i.timescale
              ∈ compatWarnings (["a.mov", "b.mov"].map brandAnalyzer))) :=
  validator_soft_rule_c5 (fun _ => true) brandAnalyzer ["a.mov", "b.mov"]
    (by decide) (by decide)

/-- C10: analyze_mov_file is total and constant, returning the fixed
placeholder metadata for every path; consequently validation over the
actual inspector succeeds on any set of existing files with no warnings,
and the only error validate_input_files can produce with the actual
inspector is the missing-file error (never an analyzer wrap, never the
no-media-tracks error). -/
theorem inspector_stub_c10 (ex : String → Bool) (files : List String)
    (hex : ∀ f ∈ files, ex f = true) :
    (∀ p, analyze_mov_file p
        = .ok { path := p, duration := 0, timescale := 1000,
                major_brand := "mp4", track_count := 1,
                video_tracks := 1, audio_tracks := 0 })
    ∧ validate_input_files ex analyze_mov_file files
        = .ok (files.map stubMeta, [])
    ∧ (∀ ex2 files2 e,
        validate_input_files ex2 analyze_mov_file files2 = .error e →
        ∃ p, e = .fileNotFound p) := by
  refine ⟨fun p => rfl, ?_, ?_⟩
  · have hm : ∀ f ∈ files,
        ¬((stubMeta f).video_tracks = 0 ∧ (stubMeta f).audio_tracks = 0) := by
      intro f _ h
      simp [stubMeta] at h
    have hH := hardLoop_ok_of ex stubMeta files [] hex hm
    rw [validate_input_files,
      show analyze_mov_file = (fun f => Except.ok (stubMeta f)) from rfl, hH,
      List.nil_append]
    show Except.ok (files.map stubMeta, compatWarnings (files.map stubMeta))
      = Except.ok (files.map stubMeta, ([] : List Warning))
    rw [compatWarnings_stub]
  · intro ex2 files2 e h
    rcases hH : hardLoop ex2 analyze_mov_file [] files2 with e2 | infos
    · rw [validate_input_files, hH] at h
      cases h
      exact hardLoop_stub_error ex2 files2 [] _ hH
    · rw [validate_input_files, hH] at h
      cases h

/-- C10 witness: two arbitrary paths flow through unchanged with no
warnings. -/
theorem inspector_stub_c10_witness :
    (∀ p, analyze_mov_file p
        = .ok { path := p, duration := 0, timescale := 1000,
                major_brand := "mp4", track_count := 1,
                video_tracks := 1, audio_tracks := 0 })
    ∧ validate_input_files (fun _ => true) analyze_mov_file
        ["clip_b.mov", "clip_a.mov"]
        = .ok (["clip_b.mov", "clip_a.mov"].map stubMeta, [])
    ∧ (∀ ex2 files2 e,
        validate_input_files ex2 analyze_mov_file files2 = .error e →
        ∃ p, e = .fileNotFound p) :=
  inspector_stub_c10 (fun _ => true) ["clip_b.mov", "clip_a.mov"] (by decide)

/-- C8 counterexample: validating an empty input sequence succeeds with
an empty result (as the repository test test_validate_input_files_empty
asserts), so an empty input is not a terminal error of the validator. -/
theorem validator_empty_cex_c8 :
    validate_input_files (fun _ => true) analyze_mov_file [] = .ok ([], []) :=
  rfl

/-- C8 amended: non-emptiness holds at pipeline level: the resolver
never returns an empty list on success (empty input fails with
NoInputError there), so any set that reaches and passes validation in
the pipeline is non-empty. -/
theorem pipeline_nonempty_c8 (fs : FS) (ps files : List String)
    (ex : String → Bool) (analyze : String → Except String MovInfo)
    (r : List MovInfo × List Warning)
    (h1 : expand_glob_patterns fs ps = .ok files)
    (h2 : validate_input_files ex analyze files = .ok r) :
    r.1 ≠ [] := by
  have hfne : files ≠ [] := by
    rcases hE : expandLoop fs [] ps with e | all
    · rw [expand_glob_patterns, hE] at h1
      cases h1
    · rw [expand_glob_patterns, hE] at h1
      by_cases hemp : all.isEmpty = true
      · simp [hemp] at h1
      · simp only [hemp, if_false] at h1
        cases h1
        intro hnil
        rw [hnil] at hemp
        exact hemp rfl
  rcases hH : hardLoop ex analyze [] files with e | infos
  · rw [validate_input_files, hH] at h2
    cases h2
  · rw [validate_input_files, hH] at h2
    cases h2
    have hlen := hardLoop_length ex analyze files [] infos hH
    intro hnil
    simp only at hnil
    rw [hnil] at hlen
    simp only [List.length_nil, Nat.zero_add] at hlen
    exact hfne (List.length_eq_zero.mp hlen.symm)

/-- C8 witness: one literal token resolves to one file which validates
to a one-element non-empty set. -/
theorem pipeline_nonempty_c8_witness :
    (([stubMeta "a.mov"], ([] : List Warning)) : List MovInfo × List Warning).1
      ≠ [] :=
  pipeline_nonempty_c8 fsTriv ["a.mov"] ["a.mov"] (fun _ => true)
    analyze_mov_file ([stubMeta "a.mov"], []) rfl rfl

/-! ## ConcatenationOrchestrator lemmas -/

theorem string_append_assoc : ∀ a b c : String, a ++ b ++ c = a ++ (b ++ c)
  | ⟨as⟩, ⟨bs⟩, ⟨cs⟩ => congrArg String.mk (List.append_assoc as bs cs)

theorem string_nil_append : ∀ a : String, "" ++ a = a
  | ⟨as⟩ => congrArg String.mk (List.nil_append as)

theorem string_append_nil : ∀ a : String, a ++ "" = a
  | ⟨as⟩ => congrArg String.mk (List.append_nil as)

theorem buildLoop_ok (canon : String → Except String String)
    (c : MovInfo → String) :
    ∀ (infos : List MovInfo) (acc : String),
      (∀ i ∈ infos, canon i.path = .ok (c i)) →
      buildLoop canon acc infos = .ok (acc ++ manifestLinesSpec c infos)
  | [], acc, _ => by
    simp [buildLoop, manifestLinesSpec, string_append_nil]
  | info :: rest, acc, h => by
    have hc := h info (List.mem_cons_self info rest)
    have hrec := buildLoop_ok canon c rest
      (acc ++ "file \x27" ++ c info ++ "\x27\n")
      (fun j hj => h j (List.mem_cons_of_mem info hj))
    simp only [string_append_assoc] at hrec
    rw [manifestLinesSpec]
    simp [buildLoop, hc, hrec, string_append_assoc]

theorem buildLoop_fail (canon : String → Except String String) :
    ∀ (infos : List MovInfo) (acc : String),
      (∃ i ∈ infos, (canon i.path).isOk = false) →
      ∃ p, buildLoop canon acc infos = .error p
  | [], _, hbad => by simp at hbad
  | info :: rest, acc, hbad => by
    rcases hc : canon info.path with e | abs
    · exact ⟨info.path, by simp [buildLoop, hc]⟩
    · have hbad' : ∃ j ∈ rest, (canon j.path).isOk = false := by
        rcases hbad with ⟨j, hj, hjf⟩
        rcases List.mem_cons.mp hj with rfl | hj'
        · rw [hc] at hjf
          simp [Except.isOk, Except.toBool] at hjf
        · exact ⟨j, hj', hjf⟩
      rcases buildLoop_fail canon rest
        (acc ++ "file \x27" ++ abs ++ "\x27\n") hbad' with ⟨p, hp⟩
      exact ⟨p, by simp [buildLoop, hc, hp]⟩

/-! ## Claim theorems: ConcatenationOrchestrator -/

/-- C2: when every canonicalization succeeds, the manifest body is
exactly one single-quoted file directive per entry, in set order, and
that body is what gets written; when any canonicalization fails, the run
fails with a path-resolution error and nothing is written (no event at
all, in particular no manifest write). -/
theorem orchestrator_manifest_c2 (env : Env) (infos : List MovInfo)
    (out : String) (c : MovInfo → String) :
    ((∀ i ∈ infos, env.canon i.path = .ok (c i)) →
      buildLoop env.canon "" infos = .ok (manifestLinesSpec c infos)
      ∧ (env.writeOk = true →
          Event.wroteManifest (filelist_path env) (manifestLinesSpec c infos)
            ∈ (concatenate_with_ffmpeg env infos out).2))
    ∧ ((∃ i ∈ infos, (env.canon i.path).isOk = false) →
        (∃ p, (concatenate_with_ffmpeg env infos out).1
            = .error (.pathResolution p))
        ∧ (concatenate_with_ffmpeg env infos out).2 = []) := by
  constructor
  · intro hall
    have hb := buildLoop_ok env.canon c infos "" hall
    rw [string_nil_append] at hb
    refine ⟨hb, ?_⟩
    intro hw
    rcases hr : env.runResult with msg | stse
    · simp [concatenate_with_ffmpeg, hb, hw, hr]
    · rcases stse with ⟨st, se⟩
      cases st
      · simp [concatenate_with_ffmpeg, hb, hw, hr]
      · simp [concatenate_with_ffmpeg, hb, hw, hr]
  · intro hbad
    rcases buildLoop_fail env.canon infos "" hbad with ⟨p, hp⟩
    exact ⟨⟨p, by simp [concatenate_with_ffmpeg, hp]⟩,
      by simp [concatenate_with_ffmpeg, hp]⟩

/-- C2 witness: one entry, successful canonicalization; the body is the
single expected directive line and it is written. -/
theorem orchestrator_manifest_c2_witness :
    buildLoop envRunOk.canon "" [sampleInfo]
      = .ok (manifestLinesSpec (fun i => "/abs/" ++ i.path) [sampleInfo])
    ∧ Event.wroteManifest (filelist_path envRunOk)
        (manifestLinesSpec (fun i => "/abs/" ++ i.path) [sampleInfo])
      ∈ (concatenate_with_ffmpeg envRunOk [sampleInfo] "out.mov").2 := by
  have h := (orchestrator_manifest_c2 envRunOk [sampleInfo] "out.mov"
    (fun i => "/abs/" ++ i.path)).1 (by
      intro i hi
      rcases List.mem_cons.mp hi with rfl | h0
      · rfl
      · exact absurd h0 (List.not_mem_nil i))
  exact ⟨h.1, h.2 rfl⟩

/-- C7 counterexample: with a spawn failure of the external tool, the
invocation step is reached (ranFfmpeg is in the trace) yet manifest
removal is never attempted, because the error propagates before the
remove_file call. -/
theorem orchestrator_cleanup_cex_c7 :
    Event.ranFfmpeg
      ∈ (concatenate_with_ffmpeg envSpawnFail [sampleInfo] "out.mov").2
    ∧ Event.removedManifest
      ∉ (concatenate_with_ffmpeg envSpawnFail [sampleInfo] "out.mov").2 := by
  decide

/-- C7 amended: manifest deletion is attempted whenever the external
tool runs to completion (success or non-zero exit), and a failure of the
deletion itself never changes the primary result; but when spawning the
tool itself fails, the function returns the execution error without
attempting deletion. -/
theorem orchestrator_cleanup_c7 (env : Env) (infos : List MovInfo)
    (out : String) :
    (∀ status stderr, env.runResult = .ok (status, stderr) →
      Event.ranFfmpeg ∈ (concatenate_with_ffmpeg env infos out).2 →
      Event.removedManifest ∈ (concatenate_with_ffmpeg env infos out).2)
    ∧ (∀ b, (concatenate_with_ffmpeg { env with removeOk := b } infos out).1
        = (concatenate_with_ffmpeg env infos out).1)
    ∧ (∀ msg, env.runResult = .error msg →
        Event.removedManifest ∉ (concatenate_with_ffmpeg env infos out).2) := by
  refine ⟨?_, ?_, ?_⟩
  · intro st se hr hran
    rcases hb : buildLoop env.canon "" infos with p | body
    · simp [concatenate_with_ffmpeg, hb] at hran
    · cases hw : env.writeOk with
      | false => simp [concatenate_with_ffmpeg, hb, hw] at hran
      | true =>
        cases st
        · simp [concatenate_with_ffmpeg, hb, hw, hr]
        · simp [concatenate_with_ffmpeg, hb, hw, hr]
  · intro b
    rfl
  · intro msg hr hmem
    rcases hb : buildLoop env.canon "" infos with p | body
    · simp [concatenate_with_ffmpeg, hb] at hmem
    · cases hw : env.writeOk with
      | false => simp [concatenate_with_ffmpeg, hb, hw] at hmem
      | true => simp [concatenate_with_ffmpeg, hb, hw, hr] at hmem

/-- C7 witness: when the tool runs and exits zero, the removal attempt
is in the trace. -/
theorem orchestrator_cleanup_c7_witness :
    Event.removedManifest
      ∈ (concatenate_with_ffmpeg envRunOk [sampleInfo] "out.mov").2 :=
  (orchestrator_cleanup_c7 envRunOk [sampleInfo] "out.mov").1 true "" rfl
    (by decide)

/-- C9: when the availability probe fails, concatenate_mov_files fails
with the missing-tool error and produces no events at all: the manifest
is never written. -/
theorem orchestrator_tool_missing_c9 (env : Env) (infos : List MovInfo)
    (out : String) (h : env.ffmpegAvailable = false) :
    concatenate_mov_files env infos out = (.error .externalToolMissing, []) := by
  simp [concatenate_mov_files, h]

/-- C9 witness: a concrete environment without ffmpeg. -/
theorem orchestrator_tool_missing_c9_witness :
    concatenate_mov_files envNoTool [sampleInfo] "out.mov"
      = (.error .externalToolMissing, []) :=
  orchestrator_tool_missing_c9 envNoTool [sampleInfo] "out.mov" rfl
